import Mathlib

/-!
# ChainHeart — shallow embedding and verification

A shallow embedding of `src/contracts/ChainHeart.sol` (Solidity ^0.8.24):
an on-chain heartbeat registry with lease-based master election.

Modelling decisions:
* `uint256` values (timestamps, timeouts, addresses, hash values) are `Nat`.
* Solidity 0.8 checked subtraction `a - b` is modelled by `checkedSub`
  returning `none` on underflow; an underflow aborts the call with the
  distinguished error `ArithUnderflow` (the EVM arithmetic panic).
* `keccak256` over identity strings is modelled by an injective encoding
  of the string into `Nat` that is `0` exactly on the empty string — the
  standard idealization of a collision-resistant hash.  The contract
  relies only on injectivity and on hashes of stored (non-empty)
  identities being nonzero.
* The `mapping(bytes32 => uint256)` with implicit zero default is a
  total function `Nat → Nat`, initially `fun _ => 0`.
* Each external function takes the implicit EVM context (`block.timestamp`
  as `now`, `msg.sender` as `caller`, `block.number` where used) as
  explicit arguments and returns `Except`: an `error` result models a
  revert, which rolls the state back (captured by `applyOp`).
-/

namespace ChainHeart

/-- Injective encoding of a character list into `Nat`; `0` exactly on `[]`.
Each step adds `1 + c.toNat` (in `[1, 1114112]` since `c.toNat < 1114112`)
in base `1114112`, little-endian. -/
def encChars : List Char → Nat
  | [] => 0
  | c :: cs => 1 + c.toNat + 1114112 * encChars cs

/-- Model of `keccak256(bytes(s))` for identity strings: injective, and
nonzero on every non-empty string (collision-resistance idealization). -/
def keccak256 (s : String) : Nat :=
  encChars s.data

/-- The contract's derived-state enum `State { Idle, Running, Election }`. -/
inductive State where
  | Idle
  | Running
  | Election
deriving DecidableEq, BEq, Repr

/-- The contract's storage:
`currentMasterMAC`, `currentMasterHash`, `heartbeatTimeout`,
`sharedKeyAddress`, and the `heartbeats` mapping. -/
structure Storage where
  currentMasterMAC : String
  currentMasterHash : Nat
  heartbeatTimeout : Nat
  sharedKeyAddress : Nat
  heartbeats : Nat → Nat

/-- The contract's custom errors, plus `ArithUnderflow` for the Solidity 0.8
checked-arithmetic panic on subtraction underflow. -/
inductive Err where
  | NoMasterElected
  | MasterStillAlive
  | OnlyMasterCanHeartbeat
  | InvalidTimeout
  | EmptyMAC
  | Unauthorized
  | ZeroAddress
  | ArithUnderflow
deriving DecidableEq, Repr

/-- The contract's events. -/
inductive Event where
  | Heartbeat (mac : String) (timestamp : Nat) (blockNumber : Nat)
  | MasterElected (newMasterMAC : String) (timestamp : Nat)
  | HeartbeatTimeoutUpdated (oldTimeout : Nat) (newTimeout : Nat)
deriving DecidableEq, Repr

/-- Solidity 0.8 checked `a - b` on `uint256`: `none` means revert. -/
def checkedSub (a b : Nat) : Option Nat :=
  if b ≤ a then some (a - b) else none

/-- `heartbeats[k] = v` — pointwise overwrite of the mapping. -/
def mapWrite (m : Nat → Nat) (k v : Nat) : Nat → Nat :=
  fun x => if x = k then v else m x

/-- The constructor: checks `_heartbeatTimeout != 0` and
`_sharedKeyAddress != address(0)`, then optionally seeds an initial master. -/
def «constructor» (ht signer : Nat) (initialMAC : String) (now : Nat) :
    Except Err (Storage × List Event) :=
  if ht = 0 then .error .InvalidTimeout
  else if signer = 0 then .error .ZeroAddress
  else if initialMAC = "" then
    .ok ({ currentMasterMAC := "", currentMasterHash := 0,
           heartbeatTimeout := ht, sharedKeyAddress := signer,
           heartbeats := fun _ => 0 }, [])
  else
    .ok ({ currentMasterMAC := initialMAC,
           currentMasterHash := keccak256 initialMAC,
           heartbeatTimeout := ht, sharedKeyAddress := signer,
           heartbeats := mapWrite (fun _ => 0) (keccak256 initialMAC) now },
         [Event.MasterElected initialMAC now])

/-- `sendHeartbeat(string mac)` with the `onlySharedKey` modifier. -/
def sendHeartbeat (c : Storage) (now blockNum caller : Nat) (mac : String) :
    Except Err (Storage × List Event) :=
  if caller ≠ c.sharedKeyAddress then .error .Unauthorized
  else if c.currentMasterHash = 0 then .error .NoMasterElected
  else if keccak256 mac ≠ c.currentMasterHash then .error .OnlyMasterCanHeartbeat
  else
    .ok ({ c with heartbeats := mapWrite c.heartbeats (keccak256 mac) now },
         [Event.Heartbeat mac now blockNum])

/-- `electMaster(string mac)` with the `onlySharedKey` modifier.
Succeeds when no master exists or the current master has timed out
(`block.timestamp - heartbeats[currentMasterHash] > heartbeatTimeout`). -/
def electMaster (c : Storage) (now caller : Nat) (mac : String) :
    Except Err (Storage × List Event) :=
  if caller ≠ c.sharedKeyAddress then .error .Unauthorized
  else if mac = "" then .error .EmptyMAC
  else if c.currentMasterHash ≠ 0 then
    match checkedSub now (c.heartbeats c.currentMasterHash) with
    | none => .error .ArithUnderflow
    | some elapsed =>
      if elapsed ≤ c.heartbeatTimeout then .error .MasterStillAlive
      else
        .ok ({ c with currentMasterMAC := mac,
                      currentMasterHash := keccak256 mac,
                      heartbeats := mapWrite c.heartbeats (keccak256 mac) now },
             [Event.MasterElected mac now])
  else
    .ok ({ c with currentMasterMAC := mac,
                  currentMasterHash := keccak256 mac,
                  heartbeats := mapWrite c.heartbeats (keccak256 mac) now },
         [Event.MasterElected mac now])

/-- `setHeartbeatTimeout(uint256 _timeout)` with the `onlySharedKey` modifier. -/
def setHeartbeatTimeout (c : Storage) (caller t : Nat) :
    Except Err (Storage × List Event) :=
  if caller ≠ c.sharedKeyAddress then .error .Unauthorized
  else if t = 0 then .error .InvalidTimeout
  else
    .ok ({ c with heartbeatTimeout := t },
         [Event.HeartbeatTimeoutUpdated c.heartbeatTimeout t])

/-- `getState()`: `Idle` when vacant, `Running` while
`block.timestamp - heartbeats[currentMasterHash] <= heartbeatTimeout`,
else `Election`; `none` models the checked-subtraction revert. -/
def getState (c : Storage) (now : Nat) : Option State :=
  if c.currentMasterHash = 0 then some .Idle
  else
    match checkedSub now (c.heartbeats c.currentMasterHash) with
    | none => none
    | some elapsed =>
      if elapsed ≤ c.heartbeatTimeout then some .Running else some .Election

/-- `isAlive()` = `getState() == State.Running`. -/
def isAlive (c : Storage) (now : Nat) : Option Bool :=
  (getState c now).map (fun st => st == State.Running)

/-- `getNodeHeartbeat(string mac)` = `heartbeats[keccak256(bytes(mac))]`. -/
def getNodeHeartbeat (c : Storage) (mac : String) : Nat :=
  c.heartbeats (keccak256 mac)

/-- `getCurrentMaster()`: master MAC, its last heartbeat, and liveness. -/
def getCurrentMaster (c : Storage) (now : Nat) :
    Option (String × Nat × Bool) :=
  (isAlive c now).map
    (fun alive => (c.currentMasterMAC, c.heartbeats c.currentMasterHash, alive))

/-- The three mutating external calls (the constructor is separate). -/
inductive Op where
  | sendHeartbeat (mac : String) (blockNum : Nat)
  | electMaster (mac : String)
  | setHeartbeatTimeout (t : Nat)

/-- Dispatch one mutating call. -/
def stepOp (c : Storage) (now caller : Nat) : Op → Except Err (Storage × List Event)
  | .sendHeartbeat mac blockNum => sendHeartbeat c now blockNum caller mac
  | .electMaster mac => electMaster c now caller mac
  | .setHeartbeatTimeout t => setHeartbeatTimeout c caller t

/-- EVM transaction semantics: a reverted call leaves storage unchanged. -/
def applyOp (c : Storage) (now caller : Nat) (op : Op) : Storage :=
  match stepOp c now caller op with
  | .ok (c', _) => c'
  | .error _ => c

/-- Storage states reachable from the constructor under non-decreasing
block timestamps, by any sequence of external calls. -/
inductive Reachable : Storage → Nat → Prop where
  | init (ht signer : Nat) (initialMAC : String) (now : Nat)
      (c : Storage) (evs : List Event) :
      «constructor» ht signer initialMAC now = .ok (c, evs) → Reachable c now
  | tick (c : Storage) (now now' : Nat) :
      Reachable c now → now ≤ now' → Reachable c now'
  | step (c : Storage) (now now' caller : Nat) (op : Op) :
      Reachable c now → now ≤ now' → Reachable (applyOp c now' caller op) now'

/-- Submit a list of `electMaster` calls at one instant `t` in ledger
order: a committed call updates the storage, a rejected call leaves it
unchanged. Returns the final storage and every call's outcome. -/
def claimSeq (c : Storage) (t caller : Nat) :
    List String → Storage × List (Except Err (List Event))
  | [] => (c, [])
  | m :: ms =>
    match electMaster c t caller m with
    | .ok (c', evs) =>
      let r := claimSeq c' t caller ms
      (r.1, .ok evs :: r.2)
    | .error e =>
      let r := claimSeq c t caller ms
      (r.1, .error e :: r.2)

/-! ## Concrete storage states used as evaluation points -/

/-- A vacant deployment: timeout 3600, shared key 7, no initial master. -/
def S0 : Storage :=
  { currentMasterMAC := "", currentMasterHash := 0, heartbeatTimeout := 3600,
    sharedKeyAddress := 7, heartbeats := fun _ => 0 }

/-- Master `"A"` elected at time 1000, timeout 3600, shared key 7. -/
def S1 : Storage :=
  { currentMasterMAC := "A", currentMasterHash := keccak256 "A",
    heartbeatTimeout := 3600, sharedKeyAddress := 7,
    heartbeats := mapWrite (fun _ => 0) (keccak256 "A") 1000 }

/-! ## Properties of the hash model -/

theorem char_toNat_lt (c : Char) : c.toNat < 1114112 := by
  have h : c.val.toNat < 0xd800 ∨ (0xe000 ≤ c.val.toNat ∧ c.val.toNat < 0x110000) :=
    c.valid
  show c.val.toNat < 1114112
  omega

theorem char_toNat_inj {c d : Char} (h : c.toNat = d.toNat) : c = d :=
  Char.ext (UInt32.ext h)

theorem encChars_eq_zero {l : List Char} : encChars l = 0 ↔ l = [] := by
  cases l with
  | nil => simp [encChars]
  | cons c cs =>
    have h : encChars (c :: cs) = 1 + c.toNat + 1114112 * encChars cs := rfl
    constructor
    · intro h0
      exact absurd h0 (by omega)
    · intro h0
      cases h0

theorem encChars_injective : ∀ l₁ l₂ : List Char, encChars l₁ = encChars l₂ → l₁ = l₂ := by
  intro l₁
  induction l₁ with
  | nil =>
    intro l₂ h
    cases l₂ with
    | nil => rfl
    | cons d ds =>
      exfalso
      simp only [encChars] at h
      omega
  | cons c cs ih =>
    intro l₂ h
    cases l₂ with
    | nil =>
      exfalso
      simp only [encChars] at h
      omega
    | cons d ds =>
      simp only [encChars] at h
      have hc := char_toNat_lt c
      have hd := char_toNat_lt d
      have h₁ : c.toNat = d.toNat := by omega
      have h₂ : encChars cs = encChars ds := by omega
      rw [ih ds h₂, char_toNat_inj h₁]

theorem keccak256_injective {a b : String} (h : keccak256 a = keccak256 b) : a = b := by
  cases a with
  | mk la =>
    cases b with
    | mk lb => exact congrArg String.mk (encChars_injective la lb h)

theorem keccak256_ne_zero {s : String} (h : s ≠ "") : keccak256 s ≠ 0 := by
  intro h0
  apply h
  cases s with
  | mk l =>
    have : l = [] := encChars_eq_zero.mp h0
    rw [this]

theorem checkedSub_of_le {a b : Nat} (h : b ≤ a) : checkedSub a b = some (a - b) := by
  simp [checkedSub, h]

/-! ## Shape lemmas about the operations -/

theorem getState_of_master (c : Storage) (now : Nat)
    (hnz : c.currentMasterHash ≠ 0)
    (hts : c.heartbeats c.currentMasterHash ≤ now) :
    getState c now =
      if now - c.heartbeats c.currentMasterHash ≤ c.heartbeatTimeout then
        some State.Running
      else some State.Election := by
  simp [getState, hnz, checkedSub_of_le hts]

theorem electMaster_succeeds (c : Storage) (now caller : Nat) (mac : String)
    (hauth : caller = c.sharedKeyAddress) (hmac : mac ≠ "")
    (hts : c.heartbeats c.currentMasterHash ≤ now)
    (hwin : c.currentMasterHash = 0 ∨
      c.heartbeatTimeout < now - c.heartbeats c.currentMasterHash) :
    electMaster c now caller mac =
      .ok ({ c with currentMasterMAC := mac,
                    currentMasterHash := keccak256 mac,
                    heartbeats := mapWrite c.heartbeats (keccak256 mac) now },
           [Event.MasterElected mac now]) := by
  subst hauth
  rcases hwin with h0 | hgt
  · simp [electMaster, hmac, h0]
  · by_cases h0 : c.currentMasterHash = 0
    · simp [electMaster, hmac, h0]
    · simp [electMaster, hmac, h0, checkedSub_of_le hts, Nat.not_le.mpr hgt]

theorem electMaster_still_alive (c : Storage) (now caller : Nat) (mac : String)
    (hauth : caller = c.sharedKeyAddress) (hmac : mac ≠ "")
    (hnz : c.currentMasterHash ≠ 0)
    (hts : c.heartbeats c.currentMasterHash ≤ now)
    (hle : now - c.heartbeats c.currentMasterHash ≤ c.heartbeatTimeout) :
    electMaster c now caller mac = .error .MasterStillAlive := by
  subst hauth
  simp [electMaster, hmac, hnz, checkedSub_of_le hts, hle]

theorem electMaster_ok_shape {c : Storage} {now caller : Nat} {mac : String}
    {c' : Storage} {evs : List Event}
    (h : electMaster c now caller mac = .ok (c', evs)) :
    c' = { c with currentMasterMAC := mac,
                  currentMasterHash := keccak256 mac,
                  heartbeats := mapWrite c.heartbeats (keccak256 mac) now }
    ∧ evs = [Event.MasterElected mac now]
    ∧ mac ≠ "" ∧ caller = c.sharedKeyAddress := by
  unfold electMaster at h
  split at h
  · simp at h
  · next hne =>
    split at h
    · simp at h
    · next hmac =>
      split at h
      · split at h
        · simp at h
        · split at h
          · simp at h
          · simp only [Except.ok.injEq, Prod.mk.injEq] at h
            exact ⟨h.1.symm, h.2.symm, hmac, not_not.mp hne⟩
      · simp only [Except.ok.injEq, Prod.mk.injEq] at h
        exact ⟨h.1.symm, h.2.symm, hmac, not_not.mp hne⟩

theorem sendHeartbeat_ok_shape {c : Storage} {now blockNum caller : Nat} {mac : String}
    {c' : Storage} {evs : List Event}
    (h : sendHeartbeat c now blockNum caller mac = .ok (c', evs)) :
    c' = { c with heartbeats := mapWrite c.heartbeats (keccak256 mac) now }
    ∧ evs = [Event.Heartbeat mac now blockNum]
    ∧ c.currentMasterHash ≠ 0 ∧ keccak256 mac = c.currentMasterHash
    ∧ caller = c.sharedKeyAddress := by
  unfold sendHeartbeat at h
  split at h
  · simp at h
  · next hne =>
    split at h
    · simp at h
    · next h0 =>
      split at h
      · simp at h
      · next hm =>
        simp only [Except.ok.injEq, Prod.mk.injEq] at h
        exact ⟨h.1.symm, h.2.symm, h0, not_not.mp hm, not_not.mp hne⟩

theorem setHeartbeatTimeout_ok_shape {c : Storage} {caller t : Nat}
    {c' : Storage} {evs : List Event}
    (h : setHeartbeatTimeout c caller t = .ok (c', evs)) :
    c' = { c with heartbeatTimeout := t }
    ∧ evs = [Event.HeartbeatTimeoutUpdated c.heartbeatTimeout t]
    ∧ t ≠ 0 ∧ caller = c.sharedKeyAddress := by
  unfold setHeartbeatTimeout at h
  split at h
  · simp at h
  · next hne =>
    split at h
    · simp at h
    · next ht =>
      simp only [Except.ok.injEq, Prod.mk.injEq] at h
      exact ⟨h.1.symm, h.2.symm, ht, not_not.mp hne⟩

theorem constructor_ok_shape {ht signer : Nat} {mac : String} {now : Nat}
    {c : Storage} {evs : List Event}
    (h : «constructor» ht signer mac now = .ok (c, evs)) :
    ht ≠ 0 ∧ signer ≠ 0 ∧
    ((mac = "" ∧
        c = { currentMasterMAC := "", currentMasterHash := 0,
              heartbeatTimeout := ht, sharedKeyAddress := signer,
              heartbeats := fun _ => 0 })
     ∨ (mac ≠ "" ∧
        c = { currentMasterMAC := mac, currentMasterHash := keccak256 mac,
              heartbeatTimeout := ht, sharedKeyAddress := signer,
              heartbeats := mapWrite (fun _ => 0) (keccak256 mac) now })) := by
  unfold «constructor» at h
  split at h
  · simp at h
  · next hht =>
    split at h
    · simp at h
    · next hsg =>
      split at h
      · next hm =>
        simp only [Except.ok.injEq, Prod.mk.injEq] at h
        exact ⟨hht, hsg, Or.inl ⟨hm, h.1.symm⟩⟩
      · next hm =>
        simp only [Except.ok.injEq, Prod.mk.injEq] at h
        exact ⟨hht, hsg, Or.inr ⟨hm, h.1.symm⟩⟩

/-! ## Transaction-level helpers -/

theorem applyOp_of_ok {c : Storage} {now caller : Nat} {op : Op}
    {c' : Storage} {evs : List Event}
    (h : stepOp c now caller op = .ok (c', evs)) :
    applyOp c now caller op = c' := by
  unfold applyOp
  rw [h]

theorem applyOp_of_error {c : Storage} {now caller : Nat} {op : Op} {e : Err}
    (h : stepOp c now caller op = .error e) :
    applyOp c now caller op = c := by
  unfold applyOp
  rw [h]

theorem applyOp_heartbeats (c : Storage) (now caller : Nat) (op : Op) (k : Nat) :
    (applyOp c now caller op).heartbeats k = c.heartbeats k
    ∨ (applyOp c now caller op).heartbeats k = now := by
  cases hstep : stepOp c now caller op with
  | error e => rw [applyOp_of_error hstep]; exact Or.inl rfl
  | ok p =>
    obtain ⟨c', evs⟩ := p
    rw [applyOp_of_ok hstep]
    cases op with
    | sendHeartbeat mac bn =>
      obtain ⟨rfl, -, -, -, -⟩ := sendHeartbeat_ok_shape hstep
      by_cases hk : k = keccak256 mac <;> simp [mapWrite, hk]
    | electMaster mac =>
      obtain ⟨rfl, -, -, -⟩ := electMaster_ok_shape hstep
      by_cases hk : k = keccak256 mac <;> simp [mapWrite, hk]
    | setHeartbeatTimeout t =>
      obtain ⟨rfl, -, -, -⟩ := setHeartbeatTimeout_ok_shape hstep
      exact Or.inl rfl

theorem applyOp_vacancy (c : Storage) (now caller : Nat) (op : Op)
    (hv : c.currentMasterHash = 0 ↔ c.currentMasterMAC = "") :
    (applyOp c now caller op).currentMasterHash = 0 ↔
      (applyOp c now caller op).currentMasterMAC = "" := by
  cases hstep : stepOp c now caller op with
  | error e => rw [applyOp_of_error hstep]; exact hv
  | ok p =>
    obtain ⟨c', evs⟩ := p
    rw [applyOp_of_ok hstep]
    cases op with
    | sendHeartbeat mac bn =>
      obtain ⟨rfl, -, -, -, -⟩ := sendHeartbeat_ok_shape hstep
      exact hv
    | electMaster mac =>
      obtain ⟨rfl, -, hmac, -⟩ := electMaster_ok_shape hstep
      simp [keccak256_ne_zero hmac, hmac]
    | setHeartbeatTimeout t =>
      obtain ⟨rfl, -, -, -⟩ := setHeartbeatTimeout_ok_shape hstep
      exact hv

theorem reachable_invariants {c : Storage} {now : Nat} (h : Reachable c now) :
    (∀ k, c.heartbeats k ≤ now)
    ∧ (c.currentMasterHash = 0 ↔ c.currentMasterMAC = "") := by
  induction h with
  | init ht signer mac now0 c0 evs hc =>
    obtain ⟨-, -, hcase | hcase⟩ := constructor_ok_shape hc
    · obtain ⟨-, rfl⟩ := hcase
      exact ⟨fun k => Nat.zero_le _, by simp⟩
    · obtain ⟨hm, rfl⟩ := hcase
      refine ⟨fun k => ?_, by simp [keccak256_ne_zero hm, hm]⟩
      by_cases hk : k = keccak256 mac <;> simp [mapWrite, hk]
  | tick c0 n n' hr hle ih =>
    exact ⟨fun k => le_trans (ih.1 k) hle, ih.2⟩
  | step c0 n n' caller op hr hle ih =>
    refine ⟨fun k => ?_, applyOp_vacancy c0 n' caller op ih.2⟩
    rcases applyOp_heartbeats c0 n' caller op k with h1 | h1
    · rw [h1]; exact le_trans (ih.1 k) hle
    · rw [h1]

/-! ## Claim theorems -/

/-- **C2** — Claim succeeds-iff: for an authorized caller, `electMaster`
rejects an empty identity with `EmptyMAC`; with a non-empty identity it
succeeds exactly when the record is vacant or the current holder's last
heartbeat is more than `heartbeatTimeout` seconds old, installing the new
master, recording its heartbeat at `now` and emitting `MasterElected`;
otherwise it fails with `MasterStillAlive`. -/
theorem electMaster_correct (c : Storage) (now caller : Nat) (mac : String)
    (hauth : caller = c.sharedKeyAddress)
    (hts : c.heartbeats c.currentMasterHash ≤ now) :
    (mac = "" → electMaster c now caller mac = .error .EmptyMAC)
    ∧ (mac ≠ "" →
        (c.currentMasterHash = 0 ∨ c.heartbeatTimeout < now - c.heartbeats c.currentMasterHash) →
        electMaster c now caller mac =
          .ok ({ c with currentMasterMAC := mac,
                        currentMasterHash := keccak256 mac,
                        heartbeats := mapWrite c.heartbeats (keccak256 mac) now },
               [Event.MasterElected mac now]))
    ∧ (mac ≠ "" → c.currentMasterHash ≠ 0 →
        now - c.heartbeats c.currentMasterHash ≤ c.heartbeatTimeout →
        electMaster c now caller mac = .error .MasterStillAlive) := by
  subst hauth
  refine ⟨fun hmac => ?_, fun hmac hcond => ?_, fun hmac hnz hle => ?_⟩
  · simp [electMaster, hmac]
  · rcases hcond with h0 | hgt
    · simp [electMaster, hmac, h0]
    · by_cases h0 : c.currentMasterHash = 0
      · simp [electMaster, hmac, h0]
      · simp [electMaster, hmac, h0, checkedSub_of_le hts, Nat.not_le.mpr hgt]
  · simp [electMaster, hmac, hnz, checkedSub_of_le hts, hle]

/-- Evaluation of `electMaster_correct` on the vacant deployment `S0`. -/
theorem electMaster_correct_witness :
    (7 : Nat) = S0.sharedKeyAddress ∧ S0.heartbeats S0.currentMasterHash ≤ 100 ∧
    electMaster S0 100 7 "A" =
      .ok ({ S0 with currentMasterMAC := "A",
                     currentMasterHash := keccak256 "A",
                     heartbeats := mapWrite S0.heartbeats (keccak256 "A") 100 },
           [Event.MasterElected "A" 100]) :=
  ⟨by decide, by decide,
   (electMaster_correct S0 100 7 "A" (by decide) (by decide)).2.1 (by decide)
     (Or.inl (by decide))⟩

/-- **C3** — Liveness boundary is inclusive: in a non-vacant state whose
master heartbeat is at `r ≤ now`, `getState` returns `Running` exactly when
`now - r ≤ heartbeatTimeout` and `Election` exactly when `now - r`
exceeds it; `isAlive` is `true` at elapsed time exactly `heartbeatTimeout`
and `false` one second later. -/
theorem getState_boundary (c : Storage) (now : Nat)
    (hnz : c.currentMasterHash ≠ 0)
    (hts : c.heartbeats c.currentMasterHash ≤ now) :
    (getState c now = some State.Running ↔
      now - c.heartbeats c.currentMasterHash ≤ c.heartbeatTimeout)
    ∧ (getState c now = some State.Election ↔
      c.heartbeatTimeout < now - c.heartbeats c.currentMasterHash)
    ∧ (now = c.heartbeats c.currentMasterHash + c.heartbeatTimeout →
        isAlive c now = some true)
    ∧ (now = c.heartbeats c.currentMasterHash + c.heartbeatTimeout + 1 →
        isAlive c now = some false) := by
  have hs : getState c now =
      if now - c.heartbeats c.currentMasterHash ≤ c.heartbeatTimeout then
        some State.Running
      else some State.Election := by
    simp [getState, hnz, checkedSub_of_le hts]
  refine ⟨?_, ?_, fun h => ?_, fun h => ?_⟩
  · rw [hs]
    by_cases hle : now - c.heartbeats c.currentMasterHash ≤ c.heartbeatTimeout
    · simp [hle]
    · simp [hle]
  · rw [hs]
    by_cases hle : now - c.heartbeats c.currentMasterHash ≤ c.heartbeatTimeout
    · simp [hle]
    · simp [hle]
      omega
  · have hle : now - c.heartbeats c.currentMasterHash ≤ c.heartbeatTimeout := by omega
    simp [isAlive, hs, hle]
    rfl
  · have hgt : ¬ now - c.heartbeats c.currentMasterHash ≤ c.heartbeatTimeout := by omega
    simp [isAlive, hs, hgt]
    rfl

/-- Evaluation of `getState_boundary` on `S1` (heartbeat 1000, timeout 3600)
read at time 4600 = 1000 + 3600, the inclusive boundary. -/
theorem getState_boundary_witness :
    S1.currentMasterHash ≠ 0 ∧ S1.heartbeats S1.currentMasterHash ≤ 4600 ∧
    isAlive S1 4600 = some true :=
  ⟨by decide, by decide,
   (getState_boundary S1 4600 (by decide) (by decide)).2.2.1 (by decide)⟩

/-- **C8** — Authorization and rejection atomicity: each of the three
mutating calls fails with `Unauthorized` when the caller differs from
`sharedKeyAddress`, and any rejected call leaves the storage unchanged. -/
theorem onlySharedKey_atomicity (c : Storage) (now caller : Nat) (op : Op) :
    (caller ≠ c.sharedKeyAddress → stepOp c now caller op = .error .Unauthorized)
    ∧ (∀ e, stepOp c now caller op = .error e → applyOp c now caller op = c) := by
  constructor
  · intro h
    cases op <;> simp [stepOp, sendHeartbeat, electMaster, setHeartbeatTimeout, h]
  · intro e h
    unfold applyOp
    rw [h]

/-- Evaluation of `onlySharedKey_atomicity`: caller 9 ≠ shared key 7 on `S0`. -/
theorem onlySharedKey_atomicity_witness :
    stepOp S0 100 9 (Op.electMaster "A") = .error .Unauthorized ∧
    applyOp S0 100 9 (Op.electMaster "A") = S0 :=
  ⟨(onlySharedKey_atomicity S0 100 9 (Op.electMaster "A")).1 (by decide),
   (onlySharedKey_atomicity S0 100 9 (Op.electMaster "A")).2 Err.Unauthorized
     ((onlySharedKey_atomicity S0 100 9 (Op.electMaster "A")).1 (by decide))⟩

/-- **C5** — Renew raises-iff: for an authorized caller, `sendHeartbeat`
fails `NoMasterElected` exactly when the record is vacant, fails
`OnlyMasterCanHeartbeat` exactly when non-vacant and the given identity's
fingerprint differs from the current master's (no liveness or history
check), and otherwise succeeds, writing the master's heartbeat to `now`
and emitting the `Heartbeat` event. -/
theorem sendHeartbeat_correct (c : Storage) (now blockNum caller : Nat) (mac : String)
    (hauth : caller = c.sharedKeyAddress) :
    (sendHeartbeat c now blockNum caller mac = .error .NoMasterElected ↔
      c.currentMasterHash = 0)
    ∧ (sendHeartbeat c now blockNum caller mac = .error .OnlyMasterCanHeartbeat ↔
      (c.currentMasterHash ≠ 0 ∧ keccak256 mac ≠ c.currentMasterHash))
    ∧ (c.currentMasterHash ≠ 0 → keccak256 mac = c.currentMasterHash →
        sendHeartbeat c now blockNum caller mac =
          .ok ({ c with heartbeats := mapWrite c.heartbeats (keccak256 mac) now },
               [Event.Heartbeat mac now blockNum])) := by
  subst hauth
  by_cases h0 : c.currentMasterHash = 0
  · exact ⟨by simp [sendHeartbeat, h0], by simp [sendHeartbeat, h0],
      fun hnz _ => absurd h0 hnz⟩
  · by_cases hm : keccak256 mac = c.currentMasterHash
    · exact ⟨by simp [sendHeartbeat, h0, hm], by simp [sendHeartbeat, h0, hm],
        fun _ _ => by simp [sendHeartbeat, h0, hm]⟩
    · exact ⟨by simp [sendHeartbeat, h0, hm], by simp [sendHeartbeat, h0, hm],
        fun _ hm2 => absurd hm2 hm⟩

/-- Evaluation of `sendHeartbeat_correct`: master `"A"` renews on `S1`. -/
theorem sendHeartbeat_correct_witness :
    (7 : Nat) = S1.sharedKeyAddress ∧ S1.currentMasterHash ≠ 0 ∧
    keccak256 "A" = S1.currentMasterHash ∧
    sendHeartbeat S1 2000 5 7 "A" =
      .ok ({ S1 with heartbeats := mapWrite S1.heartbeats (keccak256 "A") 2000 },
           [Event.Heartbeat "A" 2000 5]) :=
  ⟨by decide, by decide, by decide,
   (sendHeartbeat_correct S1 2000 5 7 "A" (by decide)).2.2 (by decide) (by decide)⟩

/-- **C6** — Timeout reconfiguration takes effect immediately on derived
reads: after a successful `setHeartbeatTimeout t'` and no other mutation,
a holder whose elapsed time exceeds `t'` reads as `Election`/not alive
with no further transaction; `setHeartbeatTimeout 0` fails with
`InvalidTimeout` and changes nothing. -/
theorem setHeartbeatTimeout_immediate (c : Storage) (now caller t' : Nat)
    (hauth : caller = c.sharedKeyAddress)
    (hnz : c.currentMasterHash ≠ 0)
    (hts : c.heartbeats c.currentMasterHash ≤ now) :
    (t' ≠ 0 →
      setHeartbeatTimeout c caller t' =
        .ok ({ c with heartbeatTimeout := t' },
             [Event.HeartbeatTimeoutUpdated c.heartbeatTimeout t'])
      ∧ (t' < now - c.heartbeats c.currentMasterHash →
          getState { c with heartbeatTimeout := t' } now = some State.Election
          ∧ isAlive { c with heartbeatTimeout := t' } now = some false))
    ∧ setHeartbeatTimeout c caller 0 = .error .InvalidTimeout
    ∧ applyOp c now caller (Op.setHeartbeatTimeout 0) = c := by
  subst hauth
  have herr : setHeartbeatTimeout c c.sharedKeyAddress 0 = .error .InvalidTimeout := by
    simp [setHeartbeatTimeout]
  have hs := getState_of_master { c with heartbeatTimeout := t' } now hnz hts
  refine ⟨fun ht' => ⟨by simp [setHeartbeatTimeout, ht'], fun hgt => ?_⟩,
    herr, applyOp_of_error herr⟩
  have hgt' : ¬ now - c.heartbeats c.currentMasterHash ≤ t' := by omega
  constructor
  · rw [hs]
    simp [hgt']
  · rw [isAlive, hs]
    simp [hgt']
    rfl

/-- Evaluation of `setHeartbeatTimeout_immediate`: on `S1` at time 3000
(elapsed 2000 < 3600), shrinking the timeout to 600 expires the master. -/
theorem setHeartbeatTimeout_immediate_witness :
    (7 : Nat) = S1.sharedKeyAddress ∧ S1.currentMasterHash ≠ 0 ∧
    S1.heartbeats S1.currentMasterHash ≤ 3000 ∧
    getState { S1 with heartbeatTimeout := 600 } 3000 = some State.Election ∧
    isAlive { S1 with heartbeatTimeout := 600 } 3000 = some false :=
  ⟨by decide, by decide, by decide,
   (((setHeartbeatTimeout_immediate S1 3000 7 600 (by decide) (by decide)
       (by decide)).1 (by decide)).2 (by decide)).1,
   (((setHeartbeatTimeout_immediate S1 3000 7 600 (by decide) (by decide)
       (by decide)).1 (by decide)).2 (by decide)).2⟩

/-- **C7** — History preservation (frame): a successful `electMaster B`
leaves the heartbeat entry of any other identity `A` untouched (so
`getNodeHeartbeat A` still returns A's pre-failover timestamp), and no
mutating operation ever deletes a heartbeat entry — an entry is either
kept or overwritten with the current time. -/
theorem claim_preserves_history (c : Storage) (now caller : Nat) (A B : String)
    (hAB : A ≠ B) :
    (∀ c' evs, electMaster c now caller B = .ok (c', evs) →
      c'.heartbeats (keccak256 A) = c.heartbeats (keccak256 A)
      ∧ getNodeHeartbeat c' A = getNodeHeartbeat c A)
    ∧ (∀ op k, (applyOp c now caller op).heartbeats k = c.heartbeats k
        ∨ (applyOp c now caller op).heartbeats k = now) := by
  have hk : keccak256 A ≠ keccak256 B := fun he => hAB (keccak256_injective he)
  refine ⟨fun c' evs h => ?_, fun op k => applyOp_heartbeats c now caller op k⟩
  obtain ⟨rfl, -, -, -⟩ := electMaster_ok_shape h
  exact ⟨by simp [mapWrite, hk], by simp [getNodeHeartbeat, mapWrite, hk]⟩

/-- Evaluation of `claim_preserves_history`: failover from `"A"` to `"B"`
on `S1` at time 5000 preserves `"A"`'s last heartbeat. -/
theorem claim_preserves_history_witness :
    ("A" : String) ≠ "B" ∧
    getNodeHeartbeat { S1 with currentMasterMAC := "B",
                               currentMasterHash := keccak256 "B",
                               heartbeats := mapWrite S1.heartbeats (keccak256 "B") 5000 }
        "A"
      = getNodeHeartbeat S1 "A" :=
  ⟨by decide,
   ((claim_preserves_history S1 5000 7 "A" "B" (by decide)).1
     { S1 with currentMasterMAC := "B",
               currentMasterHash := keccak256 "B",
               heartbeats := mapWrite S1.heartbeats (keccak256 "B") 5000 }
     [Event.MasterElected "B" 5000] rfl).2⟩

/-- **C4 counterexample** — the claim "a successful Renew occurs only when
the derived state is Leased" is false on the code: on `S1` at time 5000
the derived state is `Election` (expired), yet the current master's
`sendHeartbeat` succeeds and brings the derived state back to `Running`. -/
theorem renew_on_expired_counterexample :
    getState S1 5000 = some State.Election
    ∧ sendHeartbeat S1 5000 42 7 "A" =
        .ok ({ S1 with heartbeats := mapWrite S1.heartbeats (keccak256 "A") 5000 },
             [Event.Heartbeat "A" 5000 42])
    ∧ getState { S1 with heartbeats := mapWrite S1.heartbeats (keccak256 "A") 5000 } 5000 =
        some State.Running :=
  ⟨by decide, rfl, by decide⟩

/-- **C4 (amended)** — every successful `sendHeartbeat` leaves the derived
state `Running`; but `Renew` is not restricted to the `Running` state: when
the derived state is `Election` (expired), a `sendHeartbeat` by the current
master still succeeds — `electMaster` is not the only operation returning
the derived state to `Running`. -/
theorem renew_self_loop (c : Storage) (now blockNum caller : Nat) (mac : String) :
    (∀ c' evs, sendHeartbeat c now blockNum caller mac = .ok (c', evs) →
      getState c' now = some State.Running)
    ∧ (caller = c.sharedKeyAddress → keccak256 mac = c.currentMasterHash →
        getState c now = some State.Election →
        sendHeartbeat c now blockNum caller mac =
          .ok ({ c with heartbeats := mapWrite c.heartbeats (keccak256 mac) now },
               [Event.Heartbeat mac now blockNum])) := by
  constructor
  · intro c' evs h
    obtain ⟨rfl, -, hnz, hm, -⟩ := sendHeartbeat_ok_shape h
    have hhb : mapWrite c.heartbeats (keccak256 mac) now c.currentMasterHash = now := by
      simp [mapWrite, ← hm]
    rw [getState_of_master
      { c with heartbeats := mapWrite c.heartbeats (keccak256 mac) now } now hnz
      (le_of_eq hhb)]
    simp [hhb]
  · intro hauth hm hst
    by_cases h0 : c.currentMasterHash = 0
    · simp [getState, h0] at hst
    · subst hauth
      simp [sendHeartbeat, h0, hm]

/-- Evaluation of `renew_self_loop`: on `S1` at time 5000 (expired) the
master's renewal succeeds and restores `Running`. -/
theorem renew_self_loop_witness :
    getState { S1 with heartbeats := mapWrite S1.heartbeats (keccak256 "A") 5000 } 5000 =
      some State.Running :=
  (renew_self_loop S1 5000 42 7 "A").1
    { S1 with heartbeats := mapWrite S1.heartbeats (keccak256 "A") 5000 }
    [Event.Heartbeat "A" 5000 42]
    ((renew_self_loop S1 5000 42 7 "A").2 (by decide) (by decide) (by decide))

/-- **C1** — Mutual exclusion of claims: from a state that is vacant or
whose master is expired at instant `t`, the first well-formed `electMaster`
in the ledger order commits; every later `electMaster` evaluated at the
same instant `t` against the resulting state fails with
`MasterStillAlive`, and in the serialized sequence exactly the first
submission commits. -/
theorem claim_mutual_exclusion (c : Storage) (t caller : Nat) (x : String)
    (ys : List String)
    (hauth : caller = c.sharedKeyAddress)
    (hx : x ≠ "")
    (hts : c.heartbeats c.currentMasterHash ≤ t)
    (hwin : c.currentMasterHash = 0 ∨
      c.heartbeatTimeout < t - c.heartbeats c.currentMasterHash)
    (hys : ∀ y ∈ ys, y ≠ "") :
    electMaster c t caller x =
      .ok ({ c with currentMasterMAC := x,
                    currentMasterHash := keccak256 x,
                    heartbeats := mapWrite c.heartbeats (keccak256 x) t },
           [Event.MasterElected x t])
    ∧ (∀ y, y ≠ "" →
        electMaster { c with currentMasterMAC := x,
                             currentMasterHash := keccak256 x,
                             heartbeats := mapWrite c.heartbeats (keccak256 x) t }
            t caller y = .error .MasterStillAlive)
    ∧ claimSeq c t caller (x :: ys) =
        ({ c with currentMasterMAC := x,
                  currentMasterHash := keccak256 x,
                  heartbeats := mapWrite c.heartbeats (keccak256 x) t },
         Except.ok [Event.MasterElected x t] ::
           ys.map fun _ => Except.error Err.MasterStillAlive) := by
  have hok := electMaster_succeeds c t caller x hauth hx hts hwin
  have hfail : ∀ y, y ≠ "" →
      electMaster { c with currentMasterMAC := x,
                           currentMasterHash := keccak256 x,
                           heartbeats := mapWrite c.heartbeats (keccak256 x) t }
        t caller y = .error .MasterStillAlive := by
    intro y hy
    apply electMaster_still_alive
    · exact hauth
    · exact hy
    · exact keccak256_ne_zero hx
    · show mapWrite c.heartbeats (keccak256 x) t (keccak256 x) ≤ t
      simp [mapWrite]
    · show t - mapWrite c.heartbeats (keccak256 x) t (keccak256 x) ≤ _
      simp [mapWrite]
  have hseq : ∀ zs, (∀ y ∈ zs, y ≠ "") →
      claimSeq { c with currentMasterMAC := x,
                        currentMasterHash := keccak256 x,
                        heartbeats := mapWrite c.heartbeats (keccak256 x) t }
          t caller zs
        = ({ c with currentMasterMAC := x,
                    currentMasterHash := keccak256 x,
                    heartbeats := mapWrite c.heartbeats (keccak256 x) t },
           zs.map fun _ => Except.error Err.MasterStillAlive) := by
    intro zs
    induction zs with
    | nil => intro _; rfl
    | cons z zs ih =>
      intro hall
      have h1 := hfail z (hall z (by simp))
      have h2 := ih (fun y hy => hall y (by simp [hy]))
      simp [claimSeq, h1, h2]
  refine ⟨hok, hfail, ?_⟩
  simp [claimSeq, hok, hseq ys hys]

/-- Evaluation of `claim_mutual_exclusion`: on the vacant `S0` at a single
instant, of the claims `"B"`, `"C"`, `"D"` only the first commits. -/
theorem claim_mutual_exclusion_witness :
    (7 : Nat) = S0.sharedKeyAddress ∧ ("B" : String) ≠ "" ∧
    S0.heartbeats S0.currentMasterHash ≤ 100 ∧
    (S0.currentMasterHash = 0 ∨
      S0.heartbeatTimeout < 100 - S0.heartbeats S0.currentMasterHash) ∧
    (∀ y ∈ (["C", "D"] : List String), y ≠ "") ∧
    claimSeq S0 100 7 ("B" :: ["C", "D"]) =
      ({ S0 with currentMasterMAC := "B",
                 currentMasterHash := keccak256 "B",
                 heartbeats := mapWrite S0.heartbeats (keccak256 "B") 100 },
       Except.ok [Event.MasterElected "B" 100] ::
         (["C", "D"] : List String).map fun _ => Except.error Err.MasterStillAlive) :=
  ⟨by decide, by decide, by decide, Or.inl (by decide), by decide,
   (claim_mutual_exclusion S0 100 7 "B" ["C", "D"] (by decide) (by decide)
     (by decide) (Or.inl (by decide)) (by decide)).2.2⟩

/-- **C9** — Vacancy invariant: in every state reachable from the
constructor, the master fingerprint is zero exactly when the master
identity is the empty string (the hash model sends non-empty strings to
nonzero values). -/
theorem vacancy_invariant (c : Storage) (now : Nat) (h : Reachable c now) :
    c.currentMasterHash = 0 ↔ c.currentMasterMAC = "" :=
  (reachable_invariants h).2

/-- Evaluation of `vacancy_invariant` on the reachable vacant state `S0`. -/
theorem vacancy_invariant_witness :
    S0.currentMasterHash = 0 ↔ S0.currentMasterMAC = "" :=
  vacancy_invariant S0 100
    (Reachable.tick S0 0 100 (Reachable.init 3600 7 "" 0 S0 [] rfl) (by decide))

/-- **C10** — Read totality: in every reachable state every stored
heartbeat is at most the current time, so the checked subtraction in
`getState` never underflows (`getState`, `isAlive`, `getCurrentMaster`
always return a value; `getNodeHeartbeat` is total by construction) and
`electMaster` never reverts with the arithmetic-underflow panic. -/
theorem reads_never_fail (c : Storage) (now : Nat) (h : Reachable c now) :
    (∀ k, c.heartbeats k ≤ now)
    ∧ (∃ st, getState c now = some st)
    ∧ (∃ b, isAlive c now = some b)
    ∧ (∃ m, getCurrentMaster c now = some m)
    ∧ (∀ caller mac, electMaster c now caller mac ≠ .error .ArithUnderflow) := by
  have hk := (reachable_invariants h).1
  have hst : ∃ st, getState c now = some st := by
    by_cases h0 : c.currentMasterHash = 0
    · exact ⟨State.Idle, by simp [getState, h0]⟩
    · rw [getState_of_master c now h0 (hk _)]
      by_cases hle : now - c.heartbeats c.currentMasterHash ≤ c.heartbeatTimeout
      · exact ⟨State.Running, by simp [hle]⟩
      · exact ⟨State.Election, by simp [hle]⟩
  obtain ⟨st, hst'⟩ := hst
  refine ⟨hk, ⟨st, hst'⟩, ⟨st == State.Running, by simp [isAlive, hst']⟩,
    ⟨(c.currentMasterMAC, c.heartbeats c.currentMasterHash, st == State.Running),
      by simp [getCurrentMaster, isAlive, hst']⟩,
    fun caller mac heq => ?_⟩
  unfold electMaster at heq
  split at heq
  · simp at heq
  · split at heq
    · simp at heq
    · split at heq
      · rw [checkedSub_of_le (hk c.currentMasterHash)] at heq
        split at heq
        · rename_i hs hcs
          exact Option.noConfusion hcs
        · split at heq
          · simp at heq
          · simp at heq
      · simp at heq

/-- Evaluation of `reads_never_fail` on the reachable state `S1` at time
5000. -/
theorem reads_never_fail_witness :
    (∀ k, S1.heartbeats k ≤ 5000)
    ∧ (∃ st, getState S1 5000 = some st)
    ∧ (∃ b, isAlive S1 5000 = some b)
    ∧ (∃ m, getCurrentMaster S1 5000 = some m)
    ∧ (∀ caller mac, electMaster S1 5000 caller mac ≠ .error .ArithUnderflow) :=
  reads_never_fail S1 5000
    (Reachable.tick S1 1000 5000
      (Reachable.init 3600 7 "A" 1000 S1 [Event.MasterElected "A" 1000] rfl)
      (by decide))

end ChainHeart
